import Mathlib

/-!
Verification development for the jtp-node repository (Janky Transfer Protocol).

The embedding models the two stateful classes of the repository:
`JTPEncoder` (lib/Encoder.js) and `JTPDecoder` (lib/Decoder.js), together
with the shared constants (lib/constants.js).

Buffers are modelled as `List Nat` of byte values; a read of a byte value v
is `v % 256`, matching the 8-bit storage of Node `Buffer` cells.  Machine
arithmetic is `Nat` with explicit `% 2^w` at the points where the source
truncates (the JS expression `(new_id - old_id) & 0xFFFF` on 16-bit values
is `(new_id + 65536 - old_id) % 65536`).  The event-emitter surface is
modelled by returning the ordered list of emitted events from each call;
`setImmediate` deferral of large-message reassembly is modelled by the
`deferred` field of a decode result (the scheduled `_reassemble_message`
call), and the asynchronous packet production of the encoder by returning
the full eventual event sequence.
-/

set_option maxHeartbeats 1000000

namespace JTP

/-- Protocol version, from lib/constants.js (`VERSION = 0`). -/
def VERSION : Nat := 0

/-- Magic first byte of every packet, from lib/constants.js (`MAGIC_BYTE = 0x4A`). -/
def MAGIC_BYTE : Nat := 0x4A

/-- Maximum payload bytes per packet, from lib/constants.js (`MAX_PAYLOAD_SIZE = 1200`). -/
def MAX_PAYLOAD_SIZE : Nat := 1200

/-- `Buffer.readUInt8(off)`: the byte at offset `off` (8-bit cell). -/
def readUInt8 (packet : List Nat) (off : Nat) : Nat :=
  packet.getD off 0 % 256

/-- `Buffer.readUInt16LE(off)`: two bytes, little-endian. -/
def readUInt16LE (packet : List Nat) (off : Nat) : Nat :=
  readUInt8 packet off + 256 * readUInt8 packet (off + 1)

/-- `Buffer.readUInt32LE(off)`: four bytes, little-endian. -/
def readUInt32LE (packet : List Nat) (off : Nat) : Nat :=
  readUInt8 packet off + 256 * readUInt8 packet (off + 1)
    + 65536 * readUInt8 packet (off + 2) + 16777216 * readUInt8 packet (off + 3)

/-- The two bytes written by `Buffer.writeUInt16LE(v)`. -/
def writeUInt16LE (v : Nat) : List Nat := [v % 256, v / 256 % 256]

/-- The four bytes written by `Buffer.writeUInt32LE(v)`. -/
def writeUInt32LE (v : Nat) : List Nat :=
  [v % 256, v / 256 % 256, v / 65536 % 256, v / 16777216 % 256]

/-- The errors either side can emit on its error channel, one constructor per
`new Error(...)` site in lib/Encoder.js and lib/Decoder.js. -/
inductive JTPError
  | packetTooShort
  | unsupportedVersion (version : Nat)
  | invalidFragment (idx cnt size : Nat)
  | messageIdMismatch (expected got : Nat)
  | duplicateFragment (idx mid : Nat)
  | fragmentCountExceeded (received cnt : Nat)
  | reassemblyFailed (mid : Nat)
  | invalidMessageType (mt : Int)
  | notABuffer
  | messageTooLarge
deriving DecidableEq, Repr

/-- Decoder events, one constructor per `this.emit(...)` site of
`JTPDecoder` (lib/Decoder.js). -/
inductive JTPEvent
  | error (e : JTPError)
  | messageStart (message_type message_id fragment_count : Nat)
  | fragmentReceived
      (message_type message_id fragment_index fragment_count fragments_received : Nat)
  | messageIncomplete (message_type message_id fragments_received fragment_count : Nat)
  | message (message_buffer : List Nat) (message_type message_id fragment_count total_bytes : Nat)
  | messageComplete (message_type message_id fragment_count total_bytes : Nat)
deriving DecidableEq, Repr

/-- Encoder events, one constructor per `this.emit(...)` site of
`JTPEncoder` (lib/Encoder.js). -/
inductive EncEvent
  | error (e : JTPError)
  | packet (packet_buffer : List Nat)
      (message_id message_type fragment_index fragment_count fragment_size : Nat)
  | messageEncoded (message_id message_type fragment_count total_bytes : Nat)
deriving DecidableEq, Repr

/-- The per-message-type reassembly accumulator object created in
`JTPDecoder.decode_packet`.  `fragments` models the JS `Map` (insertion
order list of key/value pairs; `Map.set` of a fresh key appends).  The
source object also carries a constant field `valid: true` that is never
read; it is omitted. -/
structure Accumulator where
  message_id : Nat
  fragment_count : Nat
  fragments_received : Nat
  fragments : List (Nat × List Nat)
  message_len : Nat
deriving DecidableEq, Repr

/-- The mutable state of a `JTPDecoder` instance: its configuration plus the
`_accumulators` map (`message_type -> accumulator`), modelled as a total
function to `Option`. -/
structure DecoderState where
  source_id : Nat
  message_types : Option (List Nat)
  accumulators : Nat → Option Accumulator

/-- `_accumulators.set(t, a)`. -/
def DecoderState.setAcc (st : DecoderState) (t : Nat) (a : Accumulator) : DecoderState :=
  { st with accumulators := fun u => if u = t then some a else st.accumulators u }

/-- `_accumulators.delete(t)`. -/
def DecoderState.removeAcc (st : DecoderState) (t : Nat) : DecoderState :=
  { st with accumulators := fun u => if u = t then none else st.accumulators u }

/-- `new JTPDecoder({source_id})` with no message-type filter. -/
def initial_decoder (source_id : Nat) : DecoderState :=
  ⟨source_id, none, fun _ => none⟩

/-- `new JTPDecoder({source_id, message_types})`. -/
def initial_decoder_filtered (source_id : Nat) (message_types : Option (List Nat)) :
    DecoderState :=
  ⟨source_id, message_types, fun _ => none⟩

/-- `JTPDecoder.reset_message_state(message_type)`: clear one accumulator, or
all of them when the argument is omitted (`none`). -/
def reset_message_state (st : DecoderState) (message_type : Option Nat) : DecoderState :=
  match message_type with
  | none => { st with accumulators := fun _ => none }
  | some t => st.removeAcc t

/-- The early-filter on `message_type` in `decode_packet`:
`this.message_types && !this.message_types.has(message_type)`. -/
def filtered_out (st : DecoderState) (message_type : Nat) : Bool :=
  match st.message_types with
  | none => false
  | some ts => !(ts.contains message_type)

/-- `JTPDecoder._is_newer_message(new_id, old_id)`: 16-bit wraparound
freshness.  The JS body is `diff = (new_id - old_id) & 0xFFFF;
return diff > 0 && diff < 0x8000`; for 16-bit operands the masked
difference is `(new_id + 65536 - old_id) % 65536`. -/
def is_newer_message (new_id old_id : Nat) : Bool :=
  let diff := (new_id + 0x10000 - old_id) % 0x10000
  decide (0 < diff) && decide (diff < 0x8000)

/-- The fragment-collection loop of `JTPDecoder._reassemble_message`:
look up fragments `i, i+1, ..., i+k-1` in order and concatenate them;
`none` when some index is missing (the `throw` of `Missing fragment i`). -/
def collect_from (fragments : List (Nat × List Nat)) : Nat → Nat → Option (List Nat)
  | _, 0 => some []
  | i, k + 1 =>
    match fragments.lookup i with
    | none => none
    | some fragment =>
      match collect_from fragments (i + 1) k with
      | none => none
      | some rest => some (fragment ++ rest)

/-- `JTPDecoder._reassemble_message(message_type, expected_message_id)`.
Returns the new state plus the emitted events.  On success the emitted
buffer is the concatenation of the stored fragments in index order (the
source copies them into a buffer of size `message_len`, which equals the
total of the copied lengths whenever the lookups cover all stored
entries); in both the success and the missing-fragment case the
accumulator is removed (the `finally` clause). -/
def reassemble_message (st : DecoderState) (message_type expected_message_id : Nat) :
    DecoderState × List JTPEvent :=
  match st.accumulators message_type with
  | none => (st, [])
  | some accumulator =>
    if accumulator.message_id ≠ expected_message_id then (st, [])
    else
      match collect_from accumulator.fragments 0 accumulator.fragment_count with
      | none =>
        (reset_message_state st (some message_type),
         [.error (.reassemblyFailed expected_message_id)])
      | some message_buffer =>
        (reset_message_state st (some message_type),
         [.message message_buffer message_type expected_message_id
            accumulator.fragment_count accumulator.message_len,
          .messageComplete message_type expected_message_id
            accumulator.fragment_count accumulator.message_len])

/-- The result of one `decode_packet` call: the post state, the emitted
events in order, the boolean return value, and the `_reassemble_message`
call scheduled through `setImmediate` for large messages, if any. -/
structure DecodeResult where
  state : DecoderState
  events : List JTPEvent
  processed : Bool
  deferred : Option (Nat × Nat)

/-- The store-and-complete tail of `JTPDecoder.decode_packet`, from the
duplicate-fragment check onward.  `st1` is the state in which the
accumulator `a` for `message_type` is already present in the map (for a
fresh accumulator the source has just `set` it and emitted the events in
`pre`). -/
def accumulate (st1 : DecoderState) (message_type message_id fragment_index fragment_count : Nat)
    (payload : List Nat) (a : Accumulator) (pre : List JTPEvent) : DecodeResult :=
  if (a.fragments.lookup fragment_index).isSome then
    ⟨st1, pre ++ [.error (.duplicateFragment fragment_index message_id)], false, none⟩
  else
    let a' : Accumulator :=
      { a with
        fragments := a.fragments ++ [(fragment_index, payload)]
        fragments_received := a.fragments_received + 1
        message_len := a.message_len + payload.length }
    let st2 := st1.setAcc message_type a'
    if a'.fragment_count < a'.fragments_received then
      ⟨reset_message_state st2 (some message_type),
        pre ++ [.error (.fragmentCountExceeded a'.fragments_received a'.fragment_count)],
        false, none⟩
    else
      let evts := pre ++
        [.fragmentReceived message_type message_id fragment_index fragment_count
          a'.fragments_received]
      if a'.fragments_received = a'.fragment_count then
        if 100 < a'.fragment_count ∨ 64 * 1024 < a'.message_len then
          ⟨st2, evts, true, some (message_type, message_id)⟩
        else
          let r := reassemble_message st2 message_type message_id
          ⟨r.1, evts ++ r.2, true, none⟩
      else ⟨st2, evts, true, none⟩

/-- The accumulator phase of `JTPDecoder.decode_packet` (after parsing,
filtering and basic validation): staleness check, creation/replacement of
the accumulator, message-id mismatch check, then `accumulate`.  A freshly
created accumulator always has `message_id = message_id` of the packet, so
the source's subsequent mismatch check is only reachable with a
pre-existing accumulator. -/
def process_fragment (st : DecoderState)
    (message_type message_id fragment_index fragment_count : Nat)
    (payload : List Nat) : DecodeResult :=
  match st.accumulators message_type with
  | none =>
    let a : Accumulator := ⟨message_id, fragment_count, 0, [], 0⟩
    accumulate (st.setAcc message_type a) message_type message_id fragment_index
      fragment_count payload a
      [.messageStart message_type message_id fragment_count]
  | some a0 =>
    if is_newer_message a0.message_id message_id then
      ⟨st, [], false, none⟩
    else if is_newer_message message_id a0.message_id then
      let a : Accumulator := ⟨message_id, fragment_count, 0, [], 0⟩
      accumulate (st.setAcc message_type a) message_type message_id fragment_index
        fragment_count payload a
        [.messageIncomplete message_type a0.message_id a0.fragments_received a0.fragment_count,
         .messageStart message_type message_id fragment_count]
    else if message_id ≠ a0.message_id then
      ⟨st, [.error (.messageIdMismatch a0.message_id message_id)], false, none⟩
    else
      accumulate st message_type message_id fragment_index fragment_count payload a0 []

/-- `JTPDecoder.decode_packet(packet)`: magic-byte check, length check,
version check, header parse, source filter, type filter, basic fragment
validation, then the accumulator phase. -/
def decode_packet (st : DecoderState) (packet : List Nat) : DecodeResult :=
  if packet.length < 1 ∨ readUInt8 packet 0 ≠ MAGIC_BYTE then
    ⟨st, [], false, none⟩
  else if packet.length < 12 then
    ⟨st, [.error .packetTooShort], false, none⟩
  else
    let version_and_type := readUInt8 packet 1
    let version := version_and_type / 64 % 4
    let message_type := version_and_type % 64
    if version ≠ VERSION then
      ⟨st, [.error (.unsupportedVersion version)], false, none⟩
    else
      let message_id := readUInt16LE packet 2
      let fragment_index := readUInt16LE packet 4
      let fragment_count := readUInt16LE packet 6
      let source_id := readUInt32LE packet 8
      let payload := packet.drop 12
      if source_id ≠ st.source_id then ⟨st, [], false, none⟩
      else if filtered_out st message_type then ⟨st, [], false, none⟩
      else if fragment_count ≤ fragment_index ∨ fragment_count = 0
          ∨ MAX_PAYLOAD_SIZE < payload.length then
        ⟨st, [.error (.invalidFragment fragment_index fragment_count payload.length)],
          false, none⟩
      else
        process_fragment st message_type message_id fragment_index fragment_count payload

/-- Result of feeding a list of packets to `decode_packet` one call after
the other (the synchronous part of `decode_packets_batch`): final state,
all events in order, and the deferred reassembly calls scheduled along
the way. -/
structure DeliverResult where
  state : DecoderState
  events : List JTPEvent
  deferred : List (Nat × Nat)

/-- Feed packets to `decode_packet` in order, accumulating events and
scheduled deferred reassembly calls. -/
def deliverAll : DecoderState → List (List Nat) → DeliverResult
  | st, [] => ⟨st, [], []⟩
  | st, p :: ps =>
    let r := decode_packet st p
    let rest := deliverAll r.state ps
    ⟨rest.state, r.events ++ rest.events, r.deferred.toList ++ rest.deferred⟩

/-- The completed messages among a list of decoder events:
(buffer, message_type, message_id, fragment_count, total_bytes). -/
def completed_messages (events : List JTPEvent) : List (List Nat × Nat × Nat × Nat × Nat) :=
  events.filterMap fun e =>
    match e with
    | .message b t m f tb => some (b, t, m, f, tb)
    | _ => none

/-- Decoder states reachable from a freshly constructed decoder through the
public operations (`decode_packet`, `reset_message_state`) and the
deferred `_reassemble_message` callbacks. -/
inductive Reachable : DecoderState → Prop
  | init (source_id : Nat) (message_types : Option (List Nat)) :
      Reachable ⟨source_id, message_types, fun _ => none⟩
  | decode (st : DecoderState) (packet : List Nat) :
      Reachable st → Reachable (decode_packet st packet).state
  | reset (st : DecoderState) (message_type : Option Nat) :
      Reachable st → Reachable (reset_message_state st message_type)
  | reassemble (st : DecoderState) (message_type message_id : Nat) :
      Reachable st → Reachable (reassemble_message st message_type message_id).1

/-! ## Encoder -/

/-- The mutable state of a `JTPEncoder` instance: `source_id` and the
`message_id` counter (the `_buffer_pool` allocation cache has no
observable effect on emitted bytes and is omitted). -/
structure EncoderState where
  source_id : Nat
  message_id : Nat
deriving DecidableEq, Repr

/-- The argument of `encode_message`, which in JS is either a `Buffer` or
some other value (rejected with `message_buffer must be a Buffer`). -/
inductive EncInput
  | buffer (bytes : List Nat)
  | notBuffer
deriving DecidableEq, Repr

/-- `JTPEncoder.increment_message_id()`: bump the counter mod 2^16. -/
def increment_message_id (st : EncoderState) : EncoderState :=
  { st with message_id := (st.message_id + 1) % 0x10000 }

/-- The 12-byte header written at the top of the packet loop in
`JTPEncoder._encode_message_async`.  Byte 1 is
`(VERSION << 6) | (message_type & 0x3F)`; with disjoint bit ranges this
is `VERSION * 64 + message_type % 64`. -/
def encode_header (message_type message_id fragment_index fragment_count source_id : Nat) :
    List Nat :=
  [MAGIC_BYTE, VERSION * 64 + message_type % 64]
    ++ writeUInt16LE message_id ++ writeUInt16LE fragment_index
    ++ writeUInt16LE fragment_count ++ writeUInt32LE source_id

/-- The payload slice of fragment `fragment_index` in
`_encode_message_async`: `frag_start = fragment_index * MAX_PAYLOAD_SIZE`,
`frag_end = min(frag_start + MAX_PAYLOAD_SIZE, message_length)`, bytes
`[frag_start, frag_end)`. -/
def frag_slice (message_buffer : List Nat) (fragment_index : Nat) : List Nat :=
  let frag_start := fragment_index * MAX_PAYLOAD_SIZE
  let frag_end := min (frag_start + MAX_PAYLOAD_SIZE) message_buffer.length
  (message_buffer.drop frag_start).take (frag_end - frag_start)

/-- The packet buffers produced by the loop of
`JTPEncoder._encode_message_async`, in emission order. -/
def encode_fragments (source_id message_id message_type : Nat) (message_buffer : List Nat)
    (fragment_count : Nat) : List (List Nat) :=
  (List.range fragment_count).map fun fragment_index =>
    encode_header message_type message_id fragment_index fragment_count source_id
      ++ frag_slice message_buffer fragment_index

/-- The full event sequence eventually emitted by
`JTPEncoder._encode_message_async`: one `packet` event per fragment, then
one `message:encoded` completion event. -/
def encode_message_async_events (source_id message_id message_type : Nat)
    (message_buffer : List Nat) (fragment_count : Nat) : List EncEvent :=
  ((List.range fragment_count).map fun fragment_index =>
    EncEvent.packet
      (encode_header message_type message_id fragment_index fragment_count source_id
        ++ frag_slice message_buffer fragment_index)
      message_id message_type fragment_index fragment_count
      (frag_slice message_buffer fragment_index).length)
  ++ [.messageEncoded message_id message_type fragment_count message_buffer.length]

/-- `fragment_count = Math.max(1, Math.ceil(len / MAX_PAYLOAD_SIZE))` of
`JTPEncoder.encode_message` (exact for `Buffer`-sized lengths). -/
def jtp_fragment_count (message_length : Nat) : Nat :=
  max 1 ((message_length + (MAX_PAYLOAD_SIZE - 1)) / MAX_PAYLOAD_SIZE)

/-- `JTPEncoder.encode_message(message_buffer, message_type)`: validation,
fragment-count bound, capture of the current `message_id`, one counter
increment, and the eventual event sequence.  Returns the new encoder
state, the JS return value (`some id` or `null`), and the events. -/
def encode_message (st : EncoderState) (input : EncInput) (message_type : Int) :
    EncoderState × Option Nat × List EncEvent :=
  if message_type < 0 ∨ 63 < message_type then
    (st, none, [.error (.invalidMessageType message_type)])
  else
    match input with
    | .notBuffer => (st, none, [.error .notABuffer])
    | .buffer message_buffer =>
      let fragment_count := jtp_fragment_count message_buffer.length
      if 0xFFFF < fragment_count then
        (st, none, [.error .messageTooLarge])
      else
        let message_id := st.message_id
        let st' := increment_message_id st
        (st', some message_id,
          encode_message_async_events st.source_id message_id message_type.toNat
            message_buffer fragment_count)

/-- The packet buffers among the events of one `encode_message` call. -/
def encoder_packets (st : EncoderState) (input : EncInput) (message_type : Int) :
    List (List Nat) :=
  (encode_message st input message_type).2.2.filterMap fun e =>
    match e with
    | .packet b _ _ _ _ _ => some b
    | _ => none

/-- A full wire packet as assembled by the encoder (and by the tests'
`createValidPacket` helper): 12-byte header followed by the payload. -/
def jtp_packet (message_type message_id fragment_index fragment_count source_id : Nat)
    (payload : List Nat) : List Nat :=
  encode_header message_type message_id fragment_index fragment_count source_id ++ payload

/-! ## Invariant / proof devices -/

/-- Structural well-formedness of an accumulator: distinct fragment keys,
all below the expected count, with `fragments_received` matching the entry
count (C3's completeness argument). -/
def acc_wf (a : Accumulator) : Prop :=
  (a.fragments.map Prod.fst).Nodup
    ∧ (∀ q ∈ a.fragments, q.1 < a.fragment_count)
    ∧ a.fragments_received = a.fragments.length

/-- A packet is count-consistent with a decoder state when, whenever the
type it carries already has an accumulator for the same message id, its
`fragment_count` field repeats the accumulator's expected count.  Every
fragment stream produced by the encoder has this property. -/
def consistent_count (st : DecoderState) (packet : List Nat) : Prop :=
  ∀ a, st.accumulators (readUInt8 packet 1 % 64) = some a →
    a.message_id = readUInt16LE packet 2 →
    a.fragment_count = readUInt16LE packet 6

/-- The accumulator contents after the fragments with indices `J` (in
arrival order) of one message have been accepted: used to state the
round-trip induction invariant. -/
def c1_acc (payload : List Nat) (mid fc : Nat) (J : List Nat) : Accumulator :=
  ⟨mid, fc, J.length, J.map (fun j => (j, frag_slice payload j)),
    (J.map (fun j => (frag_slice payload j).length)).sum⟩

/-- The decoder state in the middle of receiving one message of type `mt`:
exactly one accumulator, holding the fragments with indices `J`. -/
def c1_state (sid : Nat) (payload : List Nat) (mt mid fc : Nat) (J : List Nat) :
    DecoderState :=
  ⟨sid, none, fun u => if u = mt then some (c1_acc payload mid fc J) else none⟩

/-- The bookkeeping invariants of a live accumulator (C10): the received
counter matches the number of stored entries, `message_len` is the total
of the stored payload lengths, and the counter never exceeds the expected
fragment count. -/
def acc_inv (a : Accumulator) : Prop :=
  a.fragments_received = a.fragments.length
    ∧ a.message_len = (a.fragments.map (fun q => q.2.length)).sum
    ∧ a.fragments_received ≤ a.fragment_count

/-- The stored payloads of an accumulator concatenated in index order
`0, 1, ..., fragment_count - 1` (the buffer `_reassemble_message` builds
when no index is missing). -/
def indexed_payloads (fragments : List (Nat × List Nat)) (fragment_count : Nat) : List Nat :=
  (((List.range fragment_count).map fun i => (fragments.lookup i).getD []).flatten : List Nat)

/-! ## Helper lemmas -/

theorem encode_header_length (mt mid fi fc sid : Nat) :
    (encode_header mt mid fi fc sid).length = 12 := rfl

theorem jtp_packet_length (mt mid fi fc sid : Nat) (pl : List Nat) :
    (jtp_packet mt mid fi fc sid pl).length = 12 + pl.length := by
  simp [jtp_packet, encode_header, writeUInt16LE, writeUInt32LE]
  omega

theorem jtp_packet_drop12 (mt mid fi fc sid : Nat) (pl : List Nat) :
    (jtp_packet mt mid fi fc sid pl).drop 12 = pl := rfl

theorem jtp_packet_read0 (mt mid fi fc sid : Nat) (pl : List Nat) :
    readUInt8 (jtp_packet mt mid fi fc sid pl) 0 = MAGIC_BYTE := rfl

theorem jtp_packet_read1 (mt mid fi fc sid : Nat) (pl : List Nat) (hmt : mt < 64) :
    readUInt8 (jtp_packet mt mid fi fc sid pl) 1 = mt := by
  show (VERSION * 64 + mt % 64) % 256 = mt
  unfold VERSION
  omega

theorem jtp_packet_read2 (mt mid fi fc sid : Nat) (pl : List Nat) (hmid : mid < 65536) :
    readUInt16LE (jtp_packet mt mid fi fc sid pl) 2 = mid := by
  show mid % 256 % 256 + 256 * (mid / 256 % 256 % 256) = mid
  omega

theorem jtp_packet_read4 (mt mid fi fc sid : Nat) (pl : List Nat) (hfi : fi < 65536) :
    readUInt16LE (jtp_packet mt mid fi fc sid pl) 4 = fi := by
  show fi % 256 % 256 + 256 * (fi / 256 % 256 % 256) = fi
  omega

theorem jtp_packet_read6 (mt mid fi fc sid : Nat) (pl : List Nat) (hfc : fc < 65536) :
    readUInt16LE (jtp_packet mt mid fi fc sid pl) 6 = fc := by
  show fc % 256 % 256 + 256 * (fc / 256 % 256 % 256) = fc
  omega

theorem jtp_packet_read8 (mt mid fi fc sid : Nat) (pl : List Nat) (hsid : sid < 4294967296) :
    readUInt32LE (jtp_packet mt mid fi fc sid pl) 8 = sid := by
  show sid % 256 % 256 + 256 * (sid / 256 % 256 % 256) + 65536 * (sid / 65536 % 256 % 256)
      + 16777216 * (sid / 16777216 % 256 % 256) = sid
  omega

/-- For a well-formed wire packet that passes every filter of the target
decoder, `decode_packet` reduces to the accumulator phase. -/
theorem decode_packet_jtp (st : DecoderState) (mt mid fi fc sid : Nat) (pl : List Nat)
    (hmt : mt < 64) (hmid : mid < 65536) (hfc : fc < 65536)
    (hsid : sid < 4294967296) (hsrc : st.source_id = sid)
    (hfilter : filtered_out st mt = false)
    (hfi : fi < fc) (hlen : pl.length ≤ 1200) :
    decode_packet st (jtp_packet mt mid fi fc sid pl) = process_fragment st mt mid fi fc pl := by
  have hfi16 : fi < 65536 := lt_trans hfi hfc
  have hL := jtp_packet_length mt mid fi fc sid pl
  have h0 := jtp_packet_read0 mt mid fi fc sid pl
  have h1 := jtp_packet_read1 mt mid fi fc sid pl hmt
  have h2 := jtp_packet_read2 mt mid fi fc sid pl hmid
  have h4 := jtp_packet_read4 mt mid fi fc sid pl hfi16
  have h6 := jtp_packet_read6 mt mid fi fc sid pl hfc
  have h8 := jtp_packet_read8 mt mid fi fc sid pl hsid
  have hD := jtp_packet_drop12 mt mid fi fc sid pl
  have hm : mt % 64 = mt := Nat.mod_eq_of_lt hmt
  have hv : mt / 64 % 4 = VERSION := by
    unfold VERSION
    omega
  simp only [decode_packet, hL, h0, h1, h2, h4, h6, h8, hD, hm, hv, hsrc, hfilter]
  rw [if_neg (by push_neg; exact ⟨by omega, rfl⟩), if_neg (by omega), if_neg (by simp),
    if_neg (by simp), if_neg (by simp),
    if_neg (by unfold MAX_PAYLOAD_SIZE; omega)]

/-! ## Claim theorems -/

/-- C6: the decoder freshness relation holds exactly when the forward
circular 16-bit distance from `b` to `a` is strictly between 0 and 32768;
consequently id 0 preempts an in-flight id 65535 (emitting
`message:incomplete` then `message:start`), while id 65535 arriving over
an in-flight id 0 is ignored as stale. -/
theorem is_newer_wraparound_spec (a b : Nat) (ha : a < 65536) (hb : b < 65536) :
    (is_newer_message a b = true ↔
      0 < ((a : Int) - b) % 65536 ∧ ((a : Int) - b) % 65536 < 32768)
    ∧ is_newer_message 0 65535 = true
    ∧ is_newer_message 65535 0 = false
    ∧ (decode_packet (decode_packet (initial_decoder 1) (jtp_packet 3 65535 0 2 1 [9])).state
        (jtp_packet 3 0 0 2 1 [8])).events =
        [.messageIncomplete 3 65535 1 2, .messageStart 3 0 2, .fragmentReceived 3 0 0 2 1]
    ∧ (decode_packet (decode_packet (initial_decoder 1) (jtp_packet 3 0 0 2 1 [9])).state
        (jtp_packet 3 65535 0 2 1 [8])).events = []
    ∧ (decode_packet (decode_packet (initial_decoder 1) (jtp_packet 3 0 0 2 1 [9])).state
        (jtp_packet 3 65535 0 2 1 [8])).processed = false := by
  refine ⟨?_, by decide, by decide, by decide, by decide, by decide⟩
  simp only [is_newer_message, Bool.and_eq_true, decide_eq_true_eq]
  omega

/-- C6 witness at a = 0, b = 65535. -/
theorem is_newer_wraparound_spec_witness :
    (is_newer_message 0 65535 = true ↔
      0 < ((0 : Int) - 65535) % 65536 ∧ ((0 : Int) - 65535) % 65536 < 32768)
    ∧ is_newer_message 0 65535 = true
    ∧ is_newer_message 65535 0 = false
    ∧ (decode_packet (decode_packet (initial_decoder 1) (jtp_packet 3 65535 0 2 1 [9])).state
        (jtp_packet 3 0 0 2 1 [8])).events =
        [.messageIncomplete 3 65535 1 2, .messageStart 3 0 2, .fragmentReceived 3 0 0 2 1]
    ∧ (decode_packet (decode_packet (initial_decoder 1) (jtp_packet 3 0 0 2 1 [9])).state
        (jtp_packet 3 65535 0 2 1 [8])).events = []
    ∧ (decode_packet (decode_packet (initial_decoder 1) (jtp_packet 3 0 0 2 1 [9])).state
        (jtp_packet 3 65535 0 2 1 [8])).processed = false :=
  is_newer_wraparound_spec 0 65535 (by decide) (by decide)

/-- C4: the encoder emits exactly `max 1 (ceil(len / 1200))` fragments;
fragment `i` is the header followed by bytes
`[i*1200, min((i+1)*1200, len))` of the input; every fragment but the
last carries exactly 1200 payload bytes, the last carries the remainder,
and an empty input yields exactly one fragment with an empty payload. -/
theorem encode_fragments_layout (source_id message_id message_type : Nat)
    (message_buffer : List Nat) (i : Nat)
    (hi : i < jtp_fragment_count message_buffer.length) :
    (encode_fragments source_id message_id message_type message_buffer
        (jtp_fragment_count message_buffer.length)).length
      = jtp_fragment_count message_buffer.length
    ∧ (encode_fragments source_id message_id message_type message_buffer
        (jtp_fragment_count message_buffer.length)).getD i []
      = encode_header message_type message_id i
          (jtp_fragment_count message_buffer.length) source_id
        ++ (message_buffer.drop (i * MAX_PAYLOAD_SIZE)).take
            (min ((i + 1) * MAX_PAYLOAD_SIZE) message_buffer.length - i * MAX_PAYLOAD_SIZE)
    ∧ (i + 1 < jtp_fragment_count message_buffer.length →
        (((encode_fragments source_id message_id message_type message_buffer
            (jtp_fragment_count message_buffer.length)).getD i []).drop 12).length
          = MAX_PAYLOAD_SIZE)
    ∧ (i + 1 = jtp_fragment_count message_buffer.length →
        (((encode_fragments source_id message_id message_type message_buffer
            (jtp_fragment_count message_buffer.length)).getD i []).drop 12).length
          = message_buffer.length - i * MAX_PAYLOAD_SIZE)
    ∧ (message_buffer.length = 0 →
        encode_fragments source_id message_id message_type message_buffer
            (jtp_fragment_count message_buffer.length)
          = [encode_header message_type message_id 0 1 source_id]) := by
  have hget : (encode_fragments source_id message_id message_type message_buffer
      (jtp_fragment_count message_buffer.length)).getD i []
      = encode_header message_type message_id i
          (jtp_fragment_count message_buffer.length) source_id
        ++ frag_slice message_buffer i := by
    simp [encode_fragments, List.getD_eq_getElem?_getD, List.getElem?_map,
      List.getElem?_range, hi]
  have hslice : frag_slice message_buffer i
      = (message_buffer.drop (i * MAX_PAYLOAD_SIZE)).take
          (min ((i + 1) * MAX_PAYLOAD_SIZE) message_buffer.length - i * MAX_PAYLOAD_SIZE) := by
    simp only [frag_slice]
    rw [Nat.succ_mul]
  have hdrop : ((encode_fragments source_id message_id message_type message_buffer
      (jtp_fragment_count message_buffer.length)).getD i []).drop 12
      = frag_slice message_buffer i := by
    rw [hget, ← encode_header_length message_type message_id i
      (jtp_fragment_count message_buffer.length) source_id, List.drop_left]
  have hfc : jtp_fragment_count message_buffer.length
      = max 1 ((message_buffer.length + 1199) / 1200) := rfl
  have hlen : (frag_slice message_buffer i).length
      = min (min (i * 1200 + 1200) message_buffer.length - i * 1200)
          (message_buffer.length - i * 1200) := by
    simp [frag_slice, MAX_PAYLOAD_SIZE]
  refine ⟨by simp [encode_fragments], by rw [hget, hslice], ?_, ?_, ?_⟩
  · intro hlast
    rw [hdrop, hlen]
    unfold MAX_PAYLOAD_SIZE
    omega
  · intro hlast
    rw [hdrop, hlen]
    unfold MAX_PAYLOAD_SIZE
    omega
  · intro hzero
    have hbuf : message_buffer = [] := List.length_eq_zero.mp hzero
    subst hbuf
    simp [encode_fragments, jtp_fragment_count, frag_slice, MAX_PAYLOAD_SIZE,
      List.range_succ]

/-- C4 witness at the empty buffer, fragment 0. -/
theorem encode_fragments_layout_witness :
    (encode_fragments 9 5 2 [] (jtp_fragment_count 0)).length = jtp_fragment_count 0
    ∧ (encode_fragments 9 5 2 [] (jtp_fragment_count 0)).getD 0 []
      = encode_header 2 5 0 (jtp_fragment_count 0) 9
        ++ (([] : List Nat).drop (0 * MAX_PAYLOAD_SIZE)).take
            (min ((0 + 1) * MAX_PAYLOAD_SIZE) 0 - 0 * MAX_PAYLOAD_SIZE)
    ∧ (0 + 1 < jtp_fragment_count 0 →
        (((encode_fragments 9 5 2 [] (jtp_fragment_count 0)).getD 0 []).drop 12).length
          = MAX_PAYLOAD_SIZE)
    ∧ (0 + 1 = jtp_fragment_count 0 →
        (((encode_fragments 9 5 2 [] (jtp_fragment_count 0)).getD 0 []).drop 12).length
          = 0 - 0 * MAX_PAYLOAD_SIZE)
    ∧ (([] : List Nat).length = 0 →
        encode_fragments 9 5 2 [] (jtp_fragment_count 0)
          = [encode_header 2 5 0 1 9]) :=
  encode_fragments_layout 9 5 2 [] 0 (by decide)

/-- C5: failed `encode_message` calls (bad type, non-buffer input, message
too large) return null, emit only the error, and leave the `message_id`
counter untouched; a successful call returns the pre-increment counter
value and bumps the counter mod 2^16 exactly once. -/
theorem encode_message_effects (st : EncoderState) (input : EncInput) (message_type : Int)
    (bytes : List Nat) :
    ((message_type < 0 ∨ 63 < message_type) →
      encode_message st input message_type
        = (st, none, [.error (.invalidMessageType message_type)]))
    ∧ (¬(message_type < 0 ∨ 63 < message_type) → input = .notBuffer →
      encode_message st input message_type = (st, none, [.error .notABuffer]))
    ∧ (¬(message_type < 0 ∨ 63 < message_type) → input = .buffer bytes →
        65535 < jtp_fragment_count bytes.length →
      encode_message st input message_type = (st, none, [.error .messageTooLarge]))
    ∧ (¬(message_type < 0 ∨ 63 < message_type) → input = .buffer bytes →
        jtp_fragment_count bytes.length ≤ 65535 →
      encode_message st input message_type
        = (⟨st.source_id, (st.message_id + 1) % 65536⟩, some st.message_id,
           encode_message_async_events st.source_id st.message_id message_type.toNat bytes
             (jtp_fragment_count bytes.length))) := by
  obtain ⟨sid, mid⟩ := st
  refine ⟨?_, ?_, ?_, ?_⟩
  · intro h
    simp [encode_message, h]
  · intro h hin
    subst hin
    simp [encode_message, h]
  · intro h hin hbig
    subst hin
    simp [encode_message, h]
    omega
  · intro h hin hsmall
    subst hin
    simp [encode_message, increment_message_id, h]
    omega

/-- C5 witness: a successful call at counter 65535 wraps the counter to 0
and returns 65535. -/
theorem encode_message_effects_witness :
    encode_message ⟨1, 65535⟩ (.buffer [7]) 0
      = (⟨1, 0⟩, some 65535, encode_message_async_events 1 65535 0 [7] 1) :=
  (encode_message_effects ⟨1, 65535⟩ (.buffer [7]) 0 [7]).2.2.2 (by decide) rfl (by decide)

/-- C8: the 12-byte header layout: byte 0 is the magic 0x4A, byte 1 packs
the version in bits 6-7 and the type in bits 0-5, bytes 2-3/4-5/6-7 are
message_id/fragment_index/fragment_count little-endian, bytes 8-11 are
source_id little-endian, and the decoder reads every field back from
those offsets. -/
theorem wire_header_layout (mt mid fi fc sid : Nat) (payload : List Nat)
    (hmt : mt < 64) (hmid : mid < 65536) (hfi : fi < 65536) (hfc : fc < 65536)
    (hsid : sid < 4294967296) :
    (encode_header mt mid fi fc sid).length = 12
    ∧ (encode_header mt mid fi fc sid).getD 0 0 = 0x4A
    ∧ (encode_header mt mid fi fc sid).getD 1 0 = VERSION * 64 + mt
    ∧ readUInt8 (jtp_packet mt mid fi fc sid payload) 1 % 64 = mt
    ∧ readUInt8 (jtp_packet mt mid fi fc sid payload) 1 / 64 % 4 = VERSION
    ∧ readUInt16LE (jtp_packet mt mid fi fc sid payload) 2 = mid
    ∧ readUInt16LE (jtp_packet mt mid fi fc sid payload) 4 = fi
    ∧ readUInt16LE (jtp_packet mt mid fi fc sid payload) 6 = fc
    ∧ readUInt32LE (jtp_packet mt mid fi fc sid payload) 8 = sid
    ∧ (jtp_packet mt mid fi fc sid payload).drop 12 = payload := by
  refine ⟨rfl, rfl, ?_, ?_, ?_, jtp_packet_read2 mt mid fi fc sid payload hmid,
    jtp_packet_read4 mt mid fi fc sid payload hfi, jtp_packet_read6 mt mid fi fc sid payload hfc,
    jtp_packet_read8 mt mid fi fc sid payload hsid, rfl⟩
  · show VERSION * 64 + mt % 64 = VERSION * 64 + mt
    unfold VERSION
    omega
  · show (VERSION * 64 + mt % 64) % 256 % 64 = mt
    unfold VERSION
    omega
  · show (VERSION * 64 + mt % 64) % 256 / 64 % 4 = VERSION
    unfold VERSION
    omega

/-- C8 witness at mt 5, mid 258, fi 1, fc 2, sid 305419896. -/
theorem wire_header_layout_witness :
    (encode_header 5 258 1 2 305419896).length = 12
    ∧ (encode_header 5 258 1 2 305419896).getD 0 0 = 0x4A
    ∧ (encode_header 5 258 1 2 305419896).getD 1 0 = VERSION * 64 + 5
    ∧ readUInt8 (jtp_packet 5 258 1 2 305419896 [1, 2]) 1 % 64 = 5
    ∧ readUInt8 (jtp_packet 5 258 1 2 305419896 [1, 2]) 1 / 64 % 4 = VERSION
    ∧ readUInt16LE (jtp_packet 5 258 1 2 305419896 [1, 2]) 2 = 258
    ∧ readUInt16LE (jtp_packet 5 258 1 2 305419896 [1, 2]) 4 = 1
    ∧ readUInt16LE (jtp_packet 5 258 1 2 305419896 [1, 2]) 6 = 2
    ∧ readUInt32LE (jtp_packet 5 258 1 2 305419896 [1, 2]) 8 = 305419896
    ∧ (jtp_packet 5 258 1 2 305419896 [1, 2]).drop 12 = [1, 2] :=
  wire_header_layout 5 258 1 2 305419896 [1, 2] (by decide) (by decide) (by decide)
    (by decide) (by decide)

/-- C2 counterexample: with an accumulator at message_id 0, a fragment with
message_id 32768 (forward circular distance exactly 32768, hence "older"
per the claim) is not silently ignored: `decode_packet` emits a
message-ID-mismatch error event. -/
theorem stale_boundary_not_silent :
    (decode_packet (decode_packet (initial_decoder 1) (jtp_packet 0 0 0 2 1 [1])).state
        (jtp_packet 0 32768 0 2 1 [2])).events
      = [.error (.messageIdMismatch 0 32768)]
    ∧ (decode_packet (decode_packet (initial_decoder 1) (jtp_packet 0 0 0 2 1 [1])).state
        (jtp_packet 0 32768 0 2 1 [2])).events ≠ [] := by
  exact ⟨by decide, by decide⟩

/-- C3 counterexample: two accepted fragments of the same message_id that
carry different `fragment_count` fields drive the accumulator to
`fragments_received == fragment_count` with index 1 missing, so
reassembly hits the missing-index branch and emits `ReassemblyFailed`. -/
theorem reassembly_failed_reachable :
    (deliverAll (initial_decoder 1)
        [jtp_packet 0 5 0 2 1 [9], jtp_packet 0 5 7 10 1 [8]]).events
      = [.messageStart 0 5 2, .fragmentReceived 0 5 0 2 1,
         .fragmentReceived 0 5 7 10 2, .error (.reassemblyFailed 5)] := by
  decide

theorem is_newer_message_self (x : Nat) : is_newer_message x x = false := by
  simp [is_newer_message, Nat.add_sub_cancel_left]

/-- C2 (amended): a valid matching fragment whose message_id is strictly
older than the in-flight accumulator's (forward circular distance
strictly above 32768) is ignored fully silently: `decode_packet` returns
false, emits nothing, and leaves the whole decoder state unchanged. -/
theorem stale_fragment_silently_ignored (st : DecoderState) (a : Accumulator)
    (mt mid fi fc sid : Nat) (pl : List Nat)
    (hmt : mt < 64) (hmid : mid < 65536) (hfc : fc < 65536) (hsid : sid < 4294967296)
    (hsrc : st.source_id = sid) (hfilter : filtered_out st mt = false)
    (hfi : fi < fc) (hlen : pl.length ≤ 1200)
    (hacc : st.accumulators mt = some a) (hamid : a.message_id < 65536)
    (hstale : 32768 < (mid + 65536 - a.message_id) % 65536) :
    decode_packet st (jtp_packet mt mid fi fc sid pl) = ⟨st, [], false, none⟩ := by
  rw [decode_packet_jtp st mt mid fi fc sid pl hmt hmid hfc hsid hsrc hfilter hfi hlen]
  have hnewer : is_newer_message a.message_id mid = true := by
    simp only [is_newer_message, Bool.and_eq_true, decide_eq_true_eq]
    omega
  simp [process_fragment, hacc, hnewer]

/-- C2 witness: accumulator at message_id 0, incoming message_id 40000
(distance 40000 > 32768) is dropped with no state change. -/
theorem stale_fragment_silently_ignored_witness :
    decode_packet (decode_packet (initial_decoder 1) (jtp_packet 0 0 0 2 1 [1])).state
        (jtp_packet 0 40000 0 2 1 [2])
      = ⟨(decode_packet (initial_decoder 1) (jtp_packet 0 0 0 2 1 [1])).state, [], false, none⟩ :=
  stale_fragment_silently_ignored
    (decode_packet (initial_decoder 1) (jtp_packet 0 0 0 2 1 [1])).state
    ⟨0, 2, 1, [(0, [1])], 1⟩ 0 40000 0 2 1 [2]
    (by decide) (by decide) (by decide) (by decide) rfl rfl
    (by decide) (by decide) rfl (by decide) (by decide)

/-- C7: delivering a fragment whose index is already stored in the matching
in-flight accumulator yields exactly one `DuplicateFragment` error,
`decode_packet` returns false, and the state (hence `fragments_received`,
`message_len` and every stored payload) is exactly unchanged. -/
theorem duplicate_fragment_rejected (st : DecoderState) (a : Accumulator)
    (mt mid fi fc sid : Nat) (pl : List Nat)
    (hmt : mt < 64) (hmid : mid < 65536) (hfc : fc < 65536) (hsid : sid < 4294967296)
    (hsrc : st.source_id = sid) (hfilter : filtered_out st mt = false)
    (hfi : fi < fc) (hlen : pl.length ≤ 1200)
    (hacc : st.accumulators mt = some a) (hamid : a.message_id = mid)
    (hdup : (a.fragments.lookup fi).isSome = true) :
    decode_packet st (jtp_packet mt mid fi fc sid pl)
      = ⟨st, [.error (.duplicateFragment fi mid)], false, none⟩ := by
  rw [decode_packet_jtp st mt mid fi fc sid pl hmt hmid hfc hsid hsrc hfilter hfi hlen]
  simp [process_fragment, hacc, hamid, is_newer_message_self, accumulate, hdup]

/-- C7 witness: the packet that created the accumulator's only entry is
delivered a second time. -/
theorem duplicate_fragment_rejected_witness :
    decode_packet (decode_packet (initial_decoder 1) (jtp_packet 0 0 0 2 1 [1])).state
        (jtp_packet 0 0 0 2 1 [1])
      = ⟨(decode_packet (initial_decoder 1) (jtp_packet 0 0 0 2 1 [1])).state,
         [.error (.duplicateFragment 0 0)], false, none⟩ :=
  duplicate_fragment_rejected
    (decode_packet (initial_decoder 1) (jtp_packet 0 0 0 2 1 [1])).state
    ⟨0, 2, 1, [(0, [1])], 1⟩ 0 0 0 2 1 [1]
    (by decide) (by decide) (by decide) (by decide) rfl rfl
    (by decide) (by decide) rfl rfl rfl

theorem reassemble_message_frame (st : DecoderState) (mt mid T' : Nat) (h : T' ≠ mt) :
    (reassemble_message st mt mid).1.accumulators T' = st.accumulators T' := by
  unfold reassemble_message
  cases hacc : st.accumulators mt with
  | none => simp [hacc]
  | some a =>
    simp only [hacc]
    split
    · rfl
    · split <;> simp [reset_message_state, DecoderState.removeAcc, h]

theorem accumulate_frame (st1 : DecoderState) (mt mid fi fc : Nat) (pl : List Nat)
    (a : Accumulator) (pre : List JTPEvent) (T' : Nat) (h : T' ≠ mt) :
    (accumulate st1 mt mid fi fc pl a pre).state.accumulators T' = st1.accumulators T' := by
  simp only [accumulate]
  split
  · rfl
  · split
    · simp [reset_message_state, DecoderState.removeAcc, DecoderState.setAcc, h]
    · split
      · split
        · simp [DecoderState.setAcc, h]
        · exact (reassemble_message_frame _ _ _ _ h).trans (by simp [DecoderState.setAcc, h])
      · simp [DecoderState.setAcc, h]

theorem process_fragment_frame (st : DecoderState) (mt mid fi fc : Nat) (pl : List Nat)
    (T' : Nat) (h : T' ≠ mt) :
    (process_fragment st mt mid fi fc pl).state.accumulators T' = st.accumulators T' := by
  unfold process_fragment
  cases hacc : st.accumulators mt with
  | none =>
    exact (accumulate_frame _ _ _ _ _ _ _ _ _ h).trans (by simp [DecoderState.setAcc, h])
  | some a0 =>
    simp only [hacc]
    split
    · rfl
    · split
      · exact (accumulate_frame _ _ _ _ _ _ _ _ _ h).trans (by simp [DecoderState.setAcc, h])
      · split
        · rfl
        · exact accumulate_frame _ _ _ _ _ _ _ _ _ h

/-- C9: a `decode_packet` call only ever touches the accumulator of the
message type carried in the packet's own type byte: every other type's
accumulator is exactly unchanged, whatever branch the call takes; and
`reset_message_state (some T)` removes exactly `T`'s accumulator and no
other. -/
theorem decoder_type_isolation (st : DecoderState) (packet : List Nat) (T T' : Nat)
    (hT' : T' ≠ readUInt8 packet 1 % 64) (hTT : T' ≠ T) :
    (decode_packet st packet).state.accumulators T' = st.accumulators T'
    ∧ (reset_message_state st (some T)).accumulators T' = st.accumulators T'
    ∧ (reset_message_state st (some T)).accumulators T = none := by
  refine ⟨?_, by simp [reset_message_state, DecoderState.removeAcc, hTT],
    by simp [reset_message_state, DecoderState.removeAcc]⟩
  simp only [decode_packet]
  split
  · rfl
  · split
    · rfl
    · split
      · rfl
      · split
        · rfl
        · split
          · rfl
          · split
            · rfl
            · exact process_fragment_frame _ _ _ _ _ _ _ hT'

/-- C9 witness: a fragment of type 0 leaves type 3's (absent) accumulator
unchanged; resetting type 0 only removes type 0. -/
theorem decoder_type_isolation_witness :
    (decode_packet (decode_packet (initial_decoder 1) (jtp_packet 0 0 0 2 1 [1])).state
        (jtp_packet 0 0 1 2 1 [5])).state.accumulators 3
      = (decode_packet (initial_decoder 1) (jtp_packet 0 0 0 2 1 [1])).state.accumulators 3
    ∧ (reset_message_state
        (decode_packet (initial_decoder 1) (jtp_packet 0 0 0 2 1 [1])).state
        (some 0)).accumulators 3
      = (decode_packet (initial_decoder 1) (jtp_packet 0 0 0 2 1 [1])).state.accumulators 3
    ∧ (reset_message_state
        (decode_packet (initial_decoder 1) (jtp_packet 0 0 0 2 1 [1])).state
        (some 0)).accumulators 0 = none :=
  decoder_type_isolation
    (decode_packet (initial_decoder 1) (jtp_packet 0 0 0 2 1 [1])).state
    (jtp_packet 0 0 1 2 1 [5]) 0 3 (by decide) (by decide)

theorem reassemble_message_acc_cases (st : DecoderState) (mt mid t : Nat) :
    (reassemble_message st mt mid).1.accumulators t = st.accumulators t
    ∨ (reassemble_message st mt mid).1.accumulators t = none := by
  unfold reassemble_message
  cases hacc : st.accumulators mt with
  | none => left; simp [hacc]
  | some a =>
    simp only [hacc]
    split
    · left; rfl
    · by_cases ht : t = mt
      · subst ht
        split <;> right <;> simp [reset_message_state, DecoderState.removeAcc]
      · split <;> left <;> simp [reset_message_state, DecoderState.removeAcc, ht]

theorem accumulate_inv (st1 : DecoderState) (mt mid fi fc : Nat) (pl : List Nat)
    (a : Accumulator) (pre : List JTPEvent)
    (H : ∀ t x, st1.accumulators t = some x → acc_inv x)
    (ha : st1.accumulators mt = some a) :
    ∀ t x, (accumulate st1 mt mid fi fc pl a pre).state.accumulators t = some x →
      acc_inv x := by
  intro t x hx
  obtain ⟨i1, i2, i3⟩ := H mt a ha
  simp only [accumulate] at hx
  split at hx
  · exact H t x hx
  · split at hx
    · -- fragment count exceeded: accumulator removed again
      rename_i hover
      by_cases ht : t = mt
      · subst ht
        simp [reset_message_state, DecoderState.removeAcc] at hx
      · simp [reset_message_state, DecoderState.removeAcc, DecoderState.setAcc, ht] at hx
        exact H t x hx
    · rename_i hok
      have hinv' : acc_inv
          { a with
            fragments := a.fragments ++ [(fi, pl)]
            fragments_received := a.fragments_received + 1
            message_len := a.message_len + pl.length } := by
        refine ⟨by simp [i1], by simp [i2], ?_⟩
        show a.fragments_received + 1 ≤ a.fragment_count
        omega
      split at hx
      · -- fragments_received reached fragment_count
        split at hx
        · -- deferred reassembly: new accumulator stays
          by_cases ht : t = mt
          · subst ht
            simp [DecoderState.setAcc] at hx
            exact hx ▸ hinv'
          · simp [DecoderState.setAcc, ht] at hx
            exact H t x hx
        · -- synchronous reassembly
          replace hx : (reassemble_message (st1.setAcc mt
              { a with
                fragments := a.fragments ++ [(fi, pl)]
                fragments_received := a.fragments_received + 1
                message_len := a.message_len + pl.length }) mt mid).1.accumulators t
              = some x := hx
          rcases reassemble_message_acc_cases (st1.setAcc mt
            { a with
              fragments := a.fragments ++ [(fi, pl)]
              fragments_received := a.fragments_received + 1
              message_len := a.message_len + pl.length }) mt mid t with hc | hc
          · rw [hc] at hx
            by_cases ht : t = mt
            · subst ht
              simp [DecoderState.setAcc] at hx
              exact hx ▸ hinv'
            · simp [DecoderState.setAcc, ht] at hx
              exact H t x hx
          · rw [hc] at hx
            exact absurd hx (by simp)
      · -- still collecting
        by_cases ht : t = mt
        · subst ht
          simp [DecoderState.setAcc] at hx
          exact hx ▸ hinv'
        · simp [DecoderState.setAcc, ht] at hx
          exact H t x hx

theorem process_fragment_inv (st : DecoderState) (mt mid fi fc : Nat) (pl : List Nat)
    (H : ∀ t x, st.accumulators t = some x → acc_inv x) :
    ∀ t x, (process_fragment st mt mid fi fc pl).state.accumulators t = some x →
      acc_inv x := by
  have hfreshState : ∀ t x,
      (st.setAcc mt ⟨mid, fc, 0, [], 0⟩).accumulators t = some x → acc_inv x := by
    intro t x hx
    by_cases ht : t = mt
    · subst ht
      simp [DecoderState.setAcc] at hx
      exact hx ▸ ⟨rfl, rfl, Nat.zero_le _⟩
    · simp [DecoderState.setAcc, ht] at hx
      exact H t x hx
  have hfreshAt : (st.setAcc mt ⟨mid, fc, 0, [], 0⟩).accumulators mt
      = some ⟨mid, fc, 0, [], 0⟩ := by
    simp [DecoderState.setAcc]
  intro t x hx
  simp only [process_fragment] at hx
  cases hacc : st.accumulators mt with
  | none =>
    simp only [hacc] at hx
    exact accumulate_inv _ _ _ _ _ _ _ _ hfreshState hfreshAt t x hx
  | some a0 =>
    simp only [hacc] at hx
    split at hx
    · exact H t x hx
    · split at hx
      · exact accumulate_inv _ _ _ _ _ _ _ _ hfreshState hfreshAt t x hx
      · split at hx
        · exact H t x hx
        · exact accumulate_inv _ _ _ _ _ _ _ _ H hacc t x hx

theorem decode_packet_inv (st : DecoderState) (p : List Nat)
    (H : ∀ t x, st.accumulators t = some x → acc_inv x) :
    ∀ t x, (decode_packet st p).state.accumulators t = some x → acc_inv x := by
  intro t x hx
  simp only [decode_packet] at hx
  split at hx
  · exact H t x hx
  · split at hx
    · exact H t x hx
    · split at hx
      · exact H t x hx
      · split at hx
        · exact H t x hx
        · split at hx
          · exact H t x hx
          · split at hx
            · exact H t x hx
            · exact process_fragment_inv _ _ _ _ _ _ H t x hx

theorem reachable_acc_inv (st : DecoderState) (h : Reachable st) :
    ∀ t x, st.accumulators t = some x → acc_inv x := by
  induction h with
  | init source_id message_types =>
    intro t x hx
    simp at hx
  | decode st packet _ ih =>
    exact decode_packet_inv st packet ih
  | reset st message_type _ ih =>
    intro t x hx
    cases message_type with
    | none => simp [reset_message_state] at hx
    | some t0 =>
      by_cases ht : t = t0
      · subst ht
        simp [reset_message_state, DecoderState.removeAcc] at hx
      · simp [reset_message_state, DecoderState.removeAcc, ht] at hx
        exact ih t x hx
  | reassemble st message_type message_id _ ih =>
    intro t x hx
    rcases reassemble_message_acc_cases st message_type message_id t with hc | hc
    · rw [hc] at hx
      exact ih t x hx
    · rw [hc] at hx
      exact absurd hx (by simp)

/-- C10: in every reachable decoder state, every live accumulator has
`fragments_received` equal to the number of stored entries, `message_len`
equal to the total length of the stored payloads, and
`fragments_received ≤ fragment_count` (an accumulator that would exceed
the count, or that completes synchronous reassembly, is destroyed before
the call returns). -/
theorem decoder_accumulator_invariants (st : DecoderState) (h : Reachable st)
    (t : Nat) (a : Accumulator) (ha : st.accumulators t = some a) :
    a.fragments_received = a.fragments.length
    ∧ a.message_len = (a.fragments.map fun q => q.2.length).sum
    ∧ a.fragments_received ≤ a.fragment_count :=
  reachable_acc_inv st h t a ha

/-- C10 witness: the state reached by one accepted first fragment. -/
theorem decoder_accumulator_invariants_witness :
    (⟨0, 2, 1, [(0, [1])], 1⟩ : Accumulator).fragments_received
        = (⟨0, 2, 1, [(0, [1])], 1⟩ : Accumulator).fragments.length
    ∧ (⟨0, 2, 1, [(0, [1])], 1⟩ : Accumulator).message_len
        = ((⟨0, 2, 1, [(0, [1])], 1⟩ : Accumulator).fragments.map fun q => q.2.length).sum
    ∧ (⟨0, 2, 1, [(0, [1])], 1⟩ : Accumulator).fragments_received
        ≤ (⟨0, 2, 1, [(0, [1])], 1⟩ : Accumulator).fragment_count :=
  decoder_accumulator_invariants
    (decode_packet ⟨1, none, fun _ => none⟩ (jtp_packet 0 0 0 2 1 [1])).state
    (Reachable.decode ⟨1, none, fun _ => none⟩ (jtp_packet 0 0 0 2 1 [1])
      (Reachable.init 1 none))
    0 ⟨0, 2, 1, [(0, [1])], 1⟩ rfl

theorem lookup_isSome_iff_mem_keys (l : List (Nat × List Nat)) (i : Nat) :
    (l.lookup i).isSome = true ↔ i ∈ l.map Prod.fst := by
  rw [List.lookup_isSome_iff]
  simp only [beq_iff_eq, List.mem_map]
  constructor
  · rintro ⟨p, hp, hpe⟩
    exact ⟨p, hp, hpe.symm⟩
  · rintro ⟨p, hp, hpe⟩
    exact ⟨p, hp, hpe.symm⟩

theorem mem_keys_of_complete (K : List Nat) (n : Nat) (hnd : K.Nodup)
    (hlt : ∀ k ∈ K, k < n) (hlen : K.length = n) : ∀ i, i < n → i ∈ K := by
  intro i hi
  have hsub : K.toFinset ⊆ Finset.range n := by
    intro x hx
    rw [List.mem_toFinset] at hx
    exact Finset.mem_range.mpr (hlt x hx)
  have hcard : K.toFinset.card = n := by
    rw [List.toFinset_card_of_nodup hnd, hlen]
  have heq : K.toFinset = Finset.range n :=
    Finset.eq_of_subset_of_card_le hsub (by rw [hcard, Finset.card_range])
  have : i ∈ K.toFinset := by
    rw [heq]
    exact Finset.mem_range.mpr hi
  exact List.mem_toFinset.mp this

theorem collect_from_of_present (frs : List (Nat × List Nat)) :
    ∀ (k i : Nat), (∀ j, j < k → (frs.lookup (i + j)).isSome = true) →
    collect_from frs i k
      = some (((List.range k).map fun d => (frs.lookup (i + d)).getD []).flatten) := by
  intro k
  induction k with
  | zero =>
    intro i _
    simp [collect_from]
  | succ m ih =>
    intro i h
    have h0 : (frs.lookup i).isSome = true := by
      have := h 0 (by omega)
      simpa using this
    obtain ⟨f, hf⟩ := Option.isSome_iff_exists.mp h0
    have hrec := ih (i + 1) (fun j hj => by
      have := h (j + 1) (by omega)
      have harith : i + (j + 1) = i + 1 + j := by omega
      rwa [harith] at this)
    simp only [collect_from, hf, hrec]
    congr 1
    rw [List.range_succ_eq_map, List.map_cons, List.map_map, List.flatten_cons]
    have h1 : (frs.lookup (i + 0)).getD [] = f := by simp [hf]
    have h2 : ((fun d => (frs.lookup (i + d)).getD []) ∘ Nat.succ)
        = fun d => (frs.lookup (i + 1 + d)).getD [] := by
      funext d
      have harith : i + Nat.succ d = i + 1 + d := by omega
      simp [Function.comp, harith]
    rw [h1, h2]

theorem acc_complete_lookup (a : Accumulator) (hwf : acc_wf a)
    (hfull : a.fragments_received = a.fragment_count) :
    ∀ i, i < a.fragment_count → (a.fragments.lookup i).isSome = true := by
  obtain ⟨hnd, hlt, hcnt⟩ := hwf
  intro i hi
  rw [lookup_isSome_iff_mem_keys]
  refine mem_keys_of_complete _ _ hnd ?_ ?_ i hi
  · intro k hk
    rw [List.mem_map] at hk
    obtain ⟨q, hq, hqk⟩ := hk
    exact hqk ▸ hlt q hq
  · rw [List.length_map, ← hcnt, hfull]

theorem reassemble_of_complete (st : DecoderState) (t : Nat) (a : Accumulator)
    (ha : st.accumulators t = some a) (hwf : acc_wf a)
    (hfull : a.fragments_received = a.fragment_count) :
    reassemble_message st t a.message_id
      = (reset_message_state st (some t),
         [.message (indexed_payloads a.fragments a.fragment_count) t a.message_id
            a.fragment_count a.message_len,
          .messageComplete t a.message_id a.fragment_count a.message_len]) := by
  have hcol : collect_from a.fragments 0 a.fragment_count
      = some (indexed_payloads a.fragments a.fragment_count) := by
    have := collect_from_of_present a.fragments a.fragment_count 0 (fun j hj => by
      simpa using acc_complete_lookup a hwf hfull j hj)
    simpa [indexed_payloads] using this
  unfold reassemble_message
  simp [ha, hcol]

theorem accumulate_wf (st1 : DecoderState) (mt mid fi fc : Nat) (pl : List Nat)
    (a : Accumulator) (pre : List JTPEvent)
    (H : ∀ t x, st1.accumulators t = some x → acc_wf x)
    (ha : st1.accumulators mt = some a)
    (hfi : fi < a.fragment_count) :
    ∀ t x, (accumulate st1 mt mid fi fc pl a pre).state.accumulators t = some x →
      acc_wf x := by
  intro t x hx
  obtain ⟨w1, w2, w3⟩ := H mt a ha
  simp only [accumulate] at hx
  split at hx
  · exact H t x hx
  · rename_i hnodup
    have hnotmem : fi ∉ a.fragments.map Prod.fst := by
      rw [← lookup_isSome_iff_mem_keys]
      simpa using hnodup
    have hwf' : acc_wf
        { a with
          fragments := a.fragments ++ [(fi, pl)]
          fragments_received := a.fragments_received + 1
          message_len := a.message_len + pl.length } := by
      refine ⟨?_, ?_, ?_⟩
      · show ((a.fragments ++ [(fi, pl)]).map Prod.fst).Nodup
        rw [List.map_append]
        simp [List.nodup_append, w1, hnotmem]
      · show ∀ q ∈ a.fragments ++ [(fi, pl)], q.1 < a.fragment_count
        intro q hq
        rcases List.mem_append.mp hq with hq | hq
        · exact w2 q hq
        · rw [List.mem_singleton] at hq
          subst hq
          exact hfi
      · show a.fragments_received + 1 = (a.fragments ++ [(fi, pl)]).length
        simp [w3]
    split at hx
    · by_cases ht : t = mt
      · subst ht
        simp [reset_message_state, DecoderState.removeAcc] at hx
      · simp [reset_message_state, DecoderState.removeAcc, DecoderState.setAcc, ht] at hx
        exact H t x hx
    · split at hx
      · split at hx
        · by_cases ht : t = mt
          · subst ht
            simp [DecoderState.setAcc] at hx
            exact hx ▸ hwf'
          · simp [DecoderState.setAcc, ht] at hx
            exact H t x hx
        · replace hx : (reassemble_message (st1.setAcc mt
              { a with
                fragments := a.fragments ++ [(fi, pl)]
                fragments_received := a.fragments_received + 1
                message_len := a.message_len + pl.length }) mt mid).1.accumulators t
              = some x := hx
          rcases reassemble_message_acc_cases (st1.setAcc mt
            { a with
              fragments := a.fragments ++ [(fi, pl)]
              fragments_received := a.fragments_received + 1
              message_len := a.message_len + pl.length }) mt mid t with hc | hc
          · rw [hc] at hx
            by_cases ht : t = mt
            · subst ht
              simp [DecoderState.setAcc] at hx
              exact hx ▸ hwf'
            · simp [DecoderState.setAcc, ht] at hx
              exact H t x hx
          · rw [hc] at hx
            exact absurd hx (by simp)
      · by_cases ht : t = mt
        · subst ht
          simp [DecoderState.setAcc] at hx
          exact hx ▸ hwf'
        · simp [DecoderState.setAcc, ht] at hx
          exact H t x hx

theorem process_fragment_wf (st : DecoderState) (mt mid fi fc : Nat) (pl : List Nat)
    (H : ∀ t x, st.accumulators t = some x → acc_wf x)
    (hcons : ∀ a, st.accumulators mt = some a → a.message_id = mid →
      a.fragment_count = fc)
    (hfi : fi < fc) :
    ∀ t x, (process_fragment st mt mid fi fc pl).state.accumulators t = some x →
      acc_wf x := by
  have hfreshState : ∀ t x,
      (st.setAcc mt ⟨mid, fc, 0, [], 0⟩).accumulators t = some x → acc_wf x := by
    intro t x hx
    by_cases ht : t = mt
    · subst ht
      simp [DecoderState.setAcc] at hx
      exact hx ▸ ⟨List.nodup_nil, by simp, rfl⟩
    · simp [DecoderState.setAcc, ht] at hx
      exact H t x hx
  have hfreshAt : (st.setAcc mt ⟨mid, fc, 0, [], 0⟩).accumulators mt
      = some ⟨mid, fc, 0, [], 0⟩ := by
    simp [DecoderState.setAcc]
  intro t x hx
  simp only [process_fragment] at hx
  cases hacc : st.accumulators mt with
  | none =>
    simp only [hacc] at hx
    exact accumulate_wf _ _ _ _ _ _ _ _ hfreshState hfreshAt hfi t x hx
  | some a0 =>
    simp only [hacc] at hx
    split at hx
    · exact H t x hx
    · split at hx
      · exact accumulate_wf _ _ _ _ _ _ _ _ hfreshState hfreshAt hfi t x hx
      · split at hx
        · exact H t x hx
        · rename_i hne
          have hmid : a0.message_id = mid := by
            by_contra hcon
            exact hne (fun heq => hcon heq.symm)
          have hcount : a0.fragment_count = fc := hcons a0 hacc hmid
          exact accumulate_wf _ _ _ _ _ _ _ _ H hacc (hcount ▸ hfi) t x hx

theorem decode_packet_wf (st : DecoderState) (p : List Nat)
    (H : ∀ t x, st.accumulators t = some x → acc_wf x)
    (hcons : consistent_count st p) :
    ∀ t x, (decode_packet st p).state.accumulators t = some x → acc_wf x := by
  intro t x hx
  simp only [decode_packet] at hx
  split at hx
  · exact H t x hx
  · split at hx
    · exact H t x hx
    · split at hx
      · exact H t x hx
      · split at hx
        · exact H t x hx
        · split at hx
          · exact H t x hx
          · split at hx
            · exact H t x hx
            · rename_i hvalid
              refine process_fragment_wf _ _ _ _ _ _ H ?_ ?_ t x hx
              · intro a ha hm
                exact hcons a ha hm
              · omega

/-- C3 (amended): for a decoder whose accumulators are structurally
well-formed, accepting a count-consistent packet (its `fragment_count`
field repeats the accumulator's expected count whenever it extends an
in-flight message, as every encoder-produced stream does) preserves
well-formedness; and whenever a well-formed accumulator reaches
`fragments_received = fragment_count`, every index below the count is
present, so reassembly concatenates the stored payloads in index order
and emits the completed message - the missing-index `ReassemblyFailed`
branch is not taken.  Without the count-consistency condition the branch
is reachable (see the counterexample). -/
theorem reassembly_completeness_consistent (st : DecoderState) (p : List Nat)
    (hwf : ∀ t x, st.accumulators t = some x → acc_wf x)
    (hcons : consistent_count st p) :
    (∀ t x, (decode_packet st p).state.accumulators t = some x → acc_wf x)
    ∧ (∀ t a, st.accumulators t = some a → a.fragments_received = a.fragment_count →
        (∀ i, i < a.fragment_count → (a.fragments.lookup i).isSome = true)
        ∧ reassemble_message st t a.message_id
          = (reset_message_state st (some t),
             [.message (indexed_payloads a.fragments a.fragment_count) t a.message_id
                a.fragment_count a.message_len,
              .messageComplete t a.message_id a.fragment_count a.message_len])) := by
  refine ⟨decode_packet_wf st p hwf hcons, ?_⟩
  intro t a ha hfull
  exact ⟨acc_complete_lookup a (hwf t a ha) hfull,
    reassemble_of_complete st t a ha (hwf t a ha) hfull⟩

/-- C3 witness: a fresh decoder (vacuously well-formed) accepting a
single-fragment packet. -/
theorem reassembly_completeness_consistent_witness :
    (∀ t x, (decode_packet (initial_decoder 1) (jtp_packet 0 0 0 1 1 [9])).state.accumulators t
        = some x → acc_wf x)
    ∧ (∀ t a, (initial_decoder 1).accumulators t = some a →
        a.fragments_received = a.fragment_count →
        (∀ i, i < a.fragment_count → (a.fragments.lookup i).isSome = true)
        ∧ reassemble_message (initial_decoder 1) t a.message_id
          = (reset_message_state (initial_decoder 1) (some t),
             [.message (indexed_payloads a.fragments a.fragment_count) t a.message_id
                a.fragment_count a.message_len,
              .messageComplete t a.message_id a.fragment_count a.message_len])) :=
  reassembly_completeness_consistent (initial_decoder 1) (jtp_packet 0 0 0 1 1 [9])
    (fun t x hx => by simp [initial_decoder] at hx)
    (fun a ha => by simp [initial_decoder] at ha)

/-! ## Round-trip (C1) -/

theorem frag_slice_length (payload : List Nat) (j : Nat) :
    (frag_slice payload j).length
      = min (min (j * 1200 + 1200) payload.length - j * 1200) (payload.length - j * 1200) := by
  simp [frag_slice, MAX_PAYLOAD_SIZE]

theorem frag_slice_length_le (payload : List Nat) (j : Nat) :
    (frag_slice payload j).length ≤ 1200 := by
  rw [frag_slice_length]
  omega

theorem flatten_frag_slices (payload : List Nat) :
    ∀ k, ((List.range k).map fun j => frag_slice payload j).flatten
      = payload.take (k * 1200) := by
  intro k
  induction k with
  | zero => simp
  | succ k ih =>
    rw [List.range_succ, List.map_append, List.flatten_append, ih]
    simp only [List.map_cons, List.map_nil, List.flatten_cons, List.flatten_nil,
      List.append_nil]
    show payload.take (k * 1200) ++ (payload.drop (k * 1200)).take
        (min (k * 1200 + 1200) payload.length - k * 1200) = payload.take ((k + 1) * 1200)
    rw [← List.take_add, List.take_eq_take]
    omega

theorem lookup_slice_map (payload : List Nat) (J : List Nat) (j : Nat) :
    (J.map fun i => (i, frag_slice payload i)).lookup j
      = if j ∈ J then some (frag_slice payload j) else none := by
  induction J with
  | nil => simp
  | cons k T ih =>
    by_cases hjk : j = k
    · subst hjk
      simp [List.lookup]
    · have hbeq : (j == k) = false := by
        simp [hjk]
      simp [List.lookup, hbeq, hjk, ih]

theorem c1_sum_perm (payload : List Nat) (fc : Nat) (J : List Nat)
    (hperm : J.Perm (List.range fc)) (hn : payload.length ≤ fc * 1200) :
    (J.map fun j => (frag_slice payload j).length).sum = payload.length := by
  have h1 : (J.map fun j => (frag_slice payload j).length).sum
      = ((List.range fc).map fun j => (frag_slice payload j).length).sum :=
    (hperm.map _).sum_eq
  have h2 : ((List.range fc).map fun j => (frag_slice payload j).length).sum
      = (((List.range fc).map fun j => frag_slice payload j).flatten).length := by
    rw [List.length_flatten, List.map_map]
    rfl
  rw [h1, h2, flatten_frag_slices, List.length_take]
  omega

theorem c1_collect (payload : List Nat) (fc : Nat) (J : List Nat)
    (hperm : J.Perm (List.range fc)) (hn : payload.length ≤ fc * 1200) :
    collect_from (J.map fun i => (i, frag_slice payload i)) 0 fc = some payload := by
  have hpres : ∀ d, d < fc →
      (((J.map fun i => (i, frag_slice payload i)).lookup (0 + d)).isSome) = true := by
    intro d hd
    rw [Nat.zero_add, lookup_slice_map]
    simp [hperm.mem_iff.mpr (List.mem_range.mpr hd)]
  rw [collect_from_of_present _ _ _ hpres]
  congr 1
  have hmap : ((List.range fc).map fun d =>
        (((J.map fun i => (i, frag_slice payload i)).lookup (0 + d)).getD []))
      = (List.range fc).map fun d => frag_slice payload d := by
    apply List.map_congr_left
    intro d hd
    rw [Nat.zero_add, lookup_slice_map]
    simp [hperm.mem_iff.mpr hd]
  rw [hmap, flatten_frag_slices]
  exact List.take_of_length_le (by omega)

theorem c1_acc_snoc (payload : List Nat) (mid fc : Nat) (J : List Nat) (j : Nat) :
    ({ c1_acc payload mid fc J with
        fragments := (c1_acc payload mid fc J).fragments ++ [(j, frag_slice payload j)]
        fragments_received := (c1_acc payload mid fc J).fragments_received + 1
        message_len := (c1_acc payload mid fc J).message_len
          + (frag_slice payload j).length } : Accumulator)
      = c1_acc payload mid fc (J ++ [j]) := by
  simp [c1_acc, List.map_append]

theorem c1_setAcc_state (sid : Nat) (payload : List Nat) (mt mid fc : Nat)
    (J J' : List Nat) (a : Accumulator) (ha : a = c1_acc payload mid fc J') :
    (c1_state sid payload mt mid fc J).setAcc mt a
      = c1_state sid payload mt mid fc J' := by
  subst ha
  have hf : (fun u => if u = mt then some (c1_acc payload mid fc J')
        else (c1_state sid payload mt mid fc J).accumulators u)
      = fun u => if u = mt then some (c1_acc payload mid fc J') else none := by
    funext u
    by_cases hu : u = mt <;> simp [c1_state, hu]
  show (⟨sid, none, fun u => if u = mt then some (c1_acc payload mid fc J')
      else (c1_state sid payload mt mid fc J).accumulators u⟩ : DecoderState)
    = ⟨sid, none, fun u => if u = mt then some (c1_acc payload mid fc J') else none⟩
  exact congrArg (DecoderState.mk sid none) hf

theorem c1_setAcc_init (sid : Nat) (payload : List Nat) (mt mid fc : Nat)
    (J' : List Nat) (a : Accumulator) (ha : a = c1_acc payload mid fc J') :
    (⟨sid, none, fun _ => none⟩ : DecoderState).setAcc mt a
      = c1_state sid payload mt mid fc J' := by
  subst ha
  have hf : (fun u => if u = mt then some (c1_acc payload mid fc J')
        else (none : Option Accumulator))
      = fun u => if u = mt then some (c1_acc payload mid fc J') else none := rfl
  show (⟨sid, none, fun u => if u = mt then some (c1_acc payload mid fc J')
      else (none : Option Accumulator)⟩ : DecoderState)
    = ⟨sid, none, fun u => if u = mt then some (c1_acc payload mid fc J') else none⟩
  exact congrArg (DecoderState.mk sid none) hf

theorem c1_removeAcc (sid : Nat) (payload : List Nat) (mt mid fc : Nat) (J : List Nat) :
    reset_message_state (c1_state sid payload mt mid fc J) (some mt)
      = (⟨sid, none, fun _ => none⟩ : DecoderState) := by
  have hf : (fun u => if u = mt then none
        else (c1_state sid payload mt mid fc J).accumulators u)
      = fun _ => (none : Option Accumulator) := by
    funext u
    by_cases hu : u = mt <;> simp [c1_state, hu]
  show (⟨sid, none, fun u => if u = mt then none
      else (c1_state sid payload mt mid fc J).accumulators u⟩ : DecoderState)
    = ⟨sid, none, fun _ => none⟩
  exact congrArg (DecoderState.mk sid none) hf

theorem c1_reassemble (sid : Nat) (payload : List Nat) (mt mid fc : Nat) (J' : List Nat)
    (hperm : J'.Perm (List.range fc)) (hn : payload.length ≤ fc * 1200) :
    reassemble_message (c1_state sid payload mt mid fc J') mt mid
      = (⟨sid, none, fun _ => none⟩,
         [.message payload mt mid fc payload.length,
          .messageComplete mt mid fc payload.length]) := by
  have hacc : (c1_state sid payload mt mid fc J').accumulators mt
      = some (c1_acc payload mid fc J') := by
    simp [c1_state]
  have hcol : collect_from (c1_acc payload mid fc J').fragments 0 fc = some payload :=
    c1_collect payload fc J' hperm hn
  have hsum : (c1_acc payload mid fc J').message_len = payload.length :=
    c1_sum_perm payload fc J' hperm hn
  have hfcp : (c1_acc payload mid fc J').fragment_count = fc := rfl
  have hmidp : (c1_acc payload mid fc J').message_id = mid := rfl
  unfold reassemble_message
  simp only [hacc]
  rw [if_neg (by simp [hmidp])]
  simp only [hfcp, hcol, hsum, hmidp]
  rw [c1_removeAcc]

theorem c1_accumulate_store (sid mt mid fc : Nat) (payload : List Nat) (J : List Nat)
    (j : Nat) (pre : List JTPEvent)
    (hj : j ∉ J) (hlt : J.length + 1 < fc) :
    accumulate (c1_state sid payload mt mid fc J) mt mid j fc (frag_slice payload j)
        (c1_acc payload mid fc J) pre
      = ⟨c1_state sid payload mt mid fc (J ++ [j]),
         pre ++ [.fragmentReceived mt mid j fc (J.length + 1)], true, none⟩ := by
  have hdup : ((c1_acc payload mid fc J).fragments.lookup j).isSome = false := by
    show ((J.map fun i => (i, frag_slice payload i)).lookup j).isSome = false
    rw [lookup_slice_map]
    simp [hj]
  have hrecJ : (c1_acc payload mid fc J).fragments_received = J.length := rfl
  have hcntJ : (c1_acc payload mid fc J).fragment_count = fc := rfl
  simp only [accumulate]
  rw [if_neg (by simp [hdup])]
  rw [c1_acc_snoc payload mid fc J j,
    c1_setAcc_state sid payload mt mid fc J (J ++ [j]) _ rfl]
  simp only [hrecJ, hcntJ]
  rw [if_neg (by omega), if_neg (by omega)]

theorem c1_accumulate_complete (sid mt mid fc : Nat) (payload : List Nat) (J : List Nat)
    (j : Nat) (pre : List JTPEvent)
    (hj : j ∉ J) (heq : J.length + 1 = fc)
    (hperm : (J ++ [j]).Perm (List.range fc))
    (hn : payload.length ≤ 6000) (hn' : payload.length ≤ fc * 1200) (hfc100 : fc ≤ 100) :
    accumulate (c1_state sid payload mt mid fc J) mt mid j fc (frag_slice payload j)
        (c1_acc payload mid fc J) pre
      = ⟨⟨sid, none, fun _ => none⟩,
         pre ++ [.fragmentReceived mt mid j fc fc,
           .message payload mt mid fc payload.length,
           .messageComplete mt mid fc payload.length], true, none⟩ := by
  have hdup : ((c1_acc payload mid fc J).fragments.lookup j).isSome = false := by
    show ((J.map fun i => (i, frag_slice payload i)).lookup j).isSome = false
    rw [lookup_slice_map]
    simp [hj]
  have hrecJ : (c1_acc payload mid fc J).fragments_received = J.length := rfl
  have hcntJ : (c1_acc payload mid fc J).fragment_count = fc := rfl
  have hsumJ : (c1_acc payload mid fc J).message_len + (frag_slice payload j).length
      = payload.length := by
    have h := c1_sum_perm payload fc (J ++ [j]) hperm hn'
    rw [List.map_append, List.sum_append] at h
    show (J.map fun i => (frag_slice payload i).length).sum
        + (frag_slice payload j).length = payload.length
    simpa using h
  simp only [accumulate]
  rw [if_neg (by simp [hdup])]
  rw [c1_acc_snoc payload mid fc J j,
    c1_setAcc_state sid payload mt mid fc J (J ++ [j]) _ rfl]
  simp only [hrecJ, hcntJ, hsumJ]
  rw [if_neg (by omega), if_pos heq, if_neg (by omega),
    c1_reassemble sid payload mt mid fc (J ++ [j]) hperm hn']
  simp [heq]

theorem c1_process_next (sid mt mid fc : Nat) (payload : List Nat) (J : List Nat)
    (j : Nat) :
    process_fragment (c1_state sid payload mt mid fc J) mt mid j fc (frag_slice payload j)
      = accumulate (c1_state sid payload mt mid fc J) mt mid j fc (frag_slice payload j)
          (c1_acc payload mid fc J) [] := by
  have hacc : (c1_state sid payload mt mid fc J).accumulators mt
      = some (c1_acc payload mid fc J) := by
    simp [c1_state]
  have hmidp : (c1_acc payload mid fc J).message_id = mid := rfl
  simp only [process_fragment, hacc, hmidp, is_newer_message_self]
  simp

theorem c1_process_first (sid mt mid fc : Nat) (payload : List Nat) (j : Nat) :
    process_fragment (⟨sid, none, fun _ => none⟩ : DecoderState) mt mid j fc
        (frag_slice payload j)
      = accumulate (c1_state sid payload mt mid fc []) mt mid j fc (frag_slice payload j)
          (c1_acc payload mid fc []) [.messageStart mt mid fc] := by
  have hset : (⟨sid, none, fun _ => none⟩ : DecoderState).setAcc mt ⟨mid, fc, 0, [], 0⟩
      = c1_state sid payload mt mid fc [] :=
    c1_setAcc_init sid payload mt mid fc [] _ rfl
  show accumulate ((⟨sid, none, fun _ => none⟩ : DecoderState).setAcc mt ⟨mid, fc, 0, [], 0⟩)
      mt mid j fc (frag_slice payload j) ⟨mid, fc, 0, [], 0⟩ [.messageStart mt mid fc] = _
  rw [hset]
  rfl

theorem completed_messages_append (A B : List JTPEvent) :
    completed_messages (A ++ B) = completed_messages A ++ completed_messages B := by
  simp [completed_messages]

theorem filterMap_packet_events (sid mid mt fc : Nat) (payload : List Nat) (R : List Nat) :
    ((R.map fun fragment_index => EncEvent.packet
        (encode_header mt mid fragment_index fc sid ++ frag_slice payload fragment_index)
        mid mt fragment_index fc (frag_slice payload fragment_index).length).filterMap
      fun e => match e with
        | EncEvent.packet b _ _ _ _ _ => some b
        | _ => none)
    = R.map fun j => jtp_packet mt mid j fc sid (frag_slice payload j) := by
  induction R with
  | nil => rfl
  | cons a t ih => simp [List.filterMap_cons, ih, jtp_packet]

theorem exists_perm_map {α β : Type} [DecidableEq β] (f : α → β) :
    ∀ (r : List α) (l : List β), l.Perm (r.map f) →
      ∃ r' : List α, List.Perm r' r ∧ l = r'.map f := by
  intro r
  induction r with
  | nil =>
    intro l h
    rw [List.map_nil] at h
    exact ⟨[], List.Perm.refl [], by simpa using h.eq_nil⟩
  | cons a rt ih =>
    intro l h
    rw [List.map_cons] at h
    have hmem : f a ∈ l := h.mem_iff.mpr (List.mem_cons_self _ _)
    have h2 : (l.erase (f a)).Perm (rt.map f) :=
      ((List.cons_perm_iff_perm_erase.mp h.symm).2).symm
    obtain ⟨rt', hrt', hl'⟩ := ih (l.erase (f a)) h2
    obtain ⟨l₁, l₂, _, hsplit, herase⟩ := List.exists_erase_eq hmem
    rw [herase] at hl'
    obtain ⟨r₁, r₂, hr12, hm1, hm2⟩ := List.append_eq_map_iff.mp hl'
    refine ⟨r₁ ++ a :: r₂, ?_, ?_⟩
    · have hp1 : List.Perm (r₁ ++ a :: r₂) (a :: (r₁ ++ r₂)) := List.perm_middle
      have hp2 : List.Perm (a :: (r₁ ++ r₂)) (a :: rt) := by
        rw [← hr12]
        exact hrt'.cons a
      exact hp1.trans hp2
    · rw [hsplit, List.map_append, List.map_cons, hm1, hm2]

theorem encode_message_success (sid mid mt : Nat) (payload : List Nat)
    (hmt : mt < 64) (hfc : jtp_fragment_count payload.length ≤ 65535) :
    encode_message ⟨sid, mid⟩ (.buffer payload) (mt : Int)
      = (increment_message_id ⟨sid, mid⟩, some mid,
         encode_message_async_events sid mid mt payload
           (jtp_fragment_count payload.length)) := by
  have hred : encode_message ⟨sid, mid⟩ (.buffer payload) (mt : Int)
      = if 65535 < jtp_fragment_count payload.length
        then ((⟨sid, mid⟩ : EncoderState), none, [.error .messageTooLarge])
        else (increment_message_id ⟨sid, mid⟩, some mid,
          encode_message_async_events sid mid (Int.toNat (mt : Int)) payload
            (jtp_fragment_count payload.length)) := by
    unfold encode_message
    rw [if_neg (by omega)]
  rw [hred, if_neg (by omega), Int.toNat_ofNat]

theorem encoder_packets_eq (sid mid mt : Nat) (payload : List Nat)
    (hmt : mt < 64) (hfc : jtp_fragment_count payload.length ≤ 65535) :
    encoder_packets ⟨sid, mid⟩ (.buffer payload) (mt : Int)
      = (List.range (jtp_fragment_count payload.length)).map fun j =>
          jtp_packet mt mid j (jtp_fragment_count payload.length) sid
            (frag_slice payload j) := by
  unfold encoder_packets
  rw [encode_message_success sid mid mt payload hmt hfc]
  show (encode_message_async_events sid mid mt payload
      (jtp_fragment_count payload.length)).filterMap _ = _
  unfold encode_message_async_events
  rw [List.filterMap_append, filterMap_packet_events]
  simp

theorem c1_deliver_go (sid mt mid fc : Nat) (payload : List Nat)
    (hfc : fc = jtp_fragment_count payload.length)
    (hmt : mt < 64) (hmid : mid < 65536) (hsid : sid < 4294967296)
    (hn : payload.length ≤ 6000) :
    ∀ (todo J : List Nat), J.length < fc → (J ++ todo).Perm (List.range fc) →
      completed_messages (deliverAll (c1_state sid payload mt mid fc J)
          (todo.map fun j => jtp_packet mt mid j fc sid (frag_slice payload j))).events
        = [(payload, mt, mid, fc, payload.length)]
      ∧ (deliverAll (c1_state sid payload mt mid fc J)
          (todo.map fun j => jtp_packet mt mid j fc sid (frag_slice payload j))).deferred
        = [] := by
  have hfc16 : fc < 65536 := by
    rw [hfc]
    unfold jtp_fragment_count MAX_PAYLOAD_SIZE
    omega
  have hfc100 : fc ≤ 100 := by
    rw [hfc]
    unfold jtp_fragment_count MAX_PAYLOAD_SIZE
    omega
  have hn' : payload.length ≤ fc * 1200 := by
    rw [hfc]
    unfold jtp_fragment_count MAX_PAYLOAD_SIZE
    omega
  intro todo
  induction todo with
  | nil =>
    intro J hlen hperm
    have hlen2 := hperm.length_eq
    simp [List.length_range] at hlen2
    omega
  | cons j rest ih =>
    intro J hlen hperm
    have hnd : (J ++ j :: rest).Nodup := hperm.nodup_iff.mpr (List.nodup_range fc)
    have hjJ : j ∉ J := by
      intro hmem
      exact (List.nodup_append.mp hnd).2.2 hmem (List.mem_cons_self _ _)
    have hjfc : j < fc := by
      have hmem : j ∈ List.range fc := hperm.subset (by simp)
      simpa using hmem
    have hlength : J.length + (rest.length + 1) = fc := by
      have h := hperm.length_eq
      simp [List.length_range] at h
      omega
    simp only [List.map_cons, deliverAll]
    rw [decode_packet_jtp (c1_state sid payload mt mid fc J) mt mid j fc sid
      (frag_slice payload j) hmt hmid hfc16 hsid rfl rfl hjfc
      (frag_slice_length_le payload j)]
    rw [c1_process_next]
    by_cases hcase : J.length + 1 < fc
    · rw [c1_accumulate_store sid mt mid fc payload J j [] hjJ hcase]
      have hperm' : ((J ++ [j]) ++ rest).Perm (List.range fc) := by
        rw [List.append_assoc, List.singleton_append]
        exact hperm
      obtain ⟨ihc, ihd⟩ := ih (J ++ [j]) (by simp; omega) hperm'
      constructor
      · simp only [List.nil_append, completed_messages_append, ihc]
        simp [completed_messages]
      · simp [Option.toList, ihd]
    · have hceq : J.length + 1 = fc := by omega
      have hrest : rest = [] := by
        have : rest.length = 0 := by omega
        exact List.length_eq_zero.mp this
      subst hrest
      have hperm' : (J ++ [j]).Perm (List.range fc) := hperm
      rw [c1_accumulate_complete sid mt mid fc payload J j [] hjJ hceq hperm' hn hn' hfc100]
      constructor
      · simp [deliverAll, completed_messages]
      · simp [deliverAll]

/-- C1: round-trip in any delivery order.  Encoding any payload of at most
5 x 1200 bytes as any type 0-63 produces the fragment packets below, and
delivering any permutation of them to a fresh decoder with the same
source_id yields exactly one completed message whose payload is the
original input and whose total_bytes metadata is its length, with no
reassembly deferred past the calls. -/
theorem roundtrip_any_order (sid mt mid : Nat) (payload : List Nat)
    (order : List (List Nat))
    (hmt : mt < 64) (hmid : mid < 65536) (hsid : sid < 4294967296)
    (hn : payload.length ≤ 6000)
    (hperm : order.Perm (encoder_packets ⟨sid, mid⟩ (.buffer payload) (mt : Int))) :
    completed_messages (deliverAll (initial_decoder sid) order).events
      = [(payload, mt, mid, jtp_fragment_count payload.length, payload.length)]
    ∧ (deliverAll (initial_decoder sid) order).deferred = [] := by
  have hfc65535 : jtp_fragment_count payload.length ≤ 65535 := by
    unfold jtp_fragment_count MAX_PAYLOAD_SIZE
    omega
  have hfc16 : jtp_fragment_count payload.length < 65536 := by omega
  have hfc100 : jtp_fragment_count payload.length ≤ 100 := by
    unfold jtp_fragment_count MAX_PAYLOAD_SIZE
    omega
  have hn' : payload.length ≤ jtp_fragment_count payload.length * 1200 := by
    unfold jtp_fragment_count MAX_PAYLOAD_SIZE
    omega
  have hfc1 : 1 ≤ jtp_fragment_count payload.length := by
    unfold jtp_fragment_count
    omega
  rw [encoder_packets_eq sid mid mt payload hmt hfc65535] at hperm
  obtain ⟨todo, htodo, horder⟩ := exists_perm_map _ _ _ hperm
  subst horder
  cases todo with
  | nil =>
    exfalso
    have h := htodo.length_eq
    simp [List.length_range] at h
    omega
  | cons j rest =>
    have hjfc : j < jtp_fragment_count payload.length := by
      have hmem : j ∈ List.range (jtp_fragment_count payload.length) :=
        htodo.subset (by simp)
      simpa using hmem
    have hlength : rest.length + 1 = jtp_fragment_count payload.length := by
      have h := htodo.length_eq
      simp [List.length_range] at h
      omega
    simp only [List.map_cons, deliverAll]
    have hinit : initial_decoder sid = (⟨sid, none, fun _ => none⟩ : DecoderState) := rfl
    rw [hinit, decode_packet_jtp (⟨sid, none, fun _ => none⟩ : DecoderState) mt mid j
      (jtp_fragment_count payload.length) sid (frag_slice payload j)
      hmt hmid hfc16 hsid rfl rfl hjfc (frag_slice_length_le payload j)]
    rw [c1_process_first sid mt mid (jtp_fragment_count payload.length) payload j]
    by_cases hcase : jtp_fragment_count payload.length = 1
    · -- single fragment: completes immediately
      have hrest : rest = [] := by
        have : rest.length = 0 := by omega
        exact List.length_eq_zero.mp this
      subst hrest
      have hperm1 : (([] : List Nat) ++ [j]).Perm
          (List.range (jtp_fragment_count payload.length)) := htodo
      rw [c1_accumulate_complete sid mt mid (jtp_fragment_count payload.length) payload
        [] j [.messageStart mt mid (jtp_fragment_count payload.length)]
        (by simp) (by simpa using hcase.symm) hperm1 hn hn' hfc100]
      constructor
      · simp [deliverAll, completed_messages]
      · simp [deliverAll]
    · -- more than one fragment: store then recurse
      have hlt : ([] : List Nat).length + 1 < jtp_fragment_count payload.length := by
        simp
        omega
      rw [c1_accumulate_store sid mt mid (jtp_fragment_count payload.length) payload
        [] j [.messageStart mt mid (jtp_fragment_count payload.length)] (by simp) hlt]
      have hperm' : (([] ++ [j]) ++ rest).Perm
          (List.range (jtp_fragment_count payload.length)) := by
        rw [List.append_assoc, List.singleton_append]
        exact htodo
      obtain ⟨ihc, ihd⟩ := c1_deliver_go sid mt mid (jtp_fragment_count payload.length)
        payload rfl hmt hmid hsid hn rest ([] ++ [j]) (by simp; omega) hperm'
      simp only [List.nil_append] at ihc ihd
      constructor
      · simp only [List.nil_append, completed_messages_append, ihc]
        simp [completed_messages]
      · simp [Option.toList, ihd]

/-- C1 witness: a 3-byte payload, one fragment, delivered as produced. -/
theorem roundtrip_any_order_witness :
    completed_messages (deliverAll (initial_decoder 7)
        (encoder_packets ⟨7, 5⟩ (.buffer [1, 2, 3]) 4)).events
      = [([1, 2, 3], 4, 5, 1, 3)]
    ∧ (deliverAll (initial_decoder 7)
        (encoder_packets ⟨7, 5⟩ (.buffer [1, 2, 3]) 4)).deferred = [] :=
  roundtrip_any_order 7 4 5 [1, 2, 3]
    (encoder_packets ⟨7, 5⟩ (.buffer [1, 2, 3]) 4)
    (by decide) (by decide) (by decide) (by decide)
    (List.Perm.refl _)

end JTP
